import Mathlib

/-!
Verification of the AgileDataScience sales-analytics dashboards.

Shallow embedding of the analytic core shared by `toy.py` and
`transportation.py` (`filter_data`, `calculate_kpis`, the filtering pipeline
in `main`, and the CSV export in `add_download_button`), and of the
regression page `predict.py` (the conjunctive filter, the `len > 1`
training guard, and the adjusted R-squared formula).

Rows are modelled as records over the columns the analytic core actually
touches; monetary amounts are rationals; dates are integers (only order
comparisons matter); column values used in categorical filters are strings.
Python float division by zero, which produces NaN/inf in the source, is
modelled with `Option` (`none` = no well-defined number).
-/

/-- One row of the sales CSV, restricted to the columns read by
`filter_data`, `calculate_kpis` and `main` in `toy.py`/`transportation.py`. -/
structure SalesRow where
  ORDERNUMBER : ℕ
  SALES : ℚ
  CUSTOMERNAME : String
  ORDERDATE : ℤ
  PRODUCTLINE : String
  COUNTRY : String
  STATUS : String
  deriving DecidableEq

/-- The categorical columns `main` passes to `filter_data`. -/
inductive Col where
  | PRODUCTLINE
  | COUNTRY
  | STATUS
  deriving DecidableEq

/-- Column access, `row[column]` for the categorical columns. -/
def SalesRow.col (r : SalesRow) (c : Col) : String :=
  match c with
  | Col.PRODUCTLINE => r.PRODUCTLINE
  | Col.COUNTRY => r.COUNTRY
  | Col.STATUS => r.STATUS

/-- `toy.py` line 38 / `transportation.py` line 27:
`data[data[column].isin(values)] if values else data`. -/
def filter_data (data : List SalesRow) (column : Col) (values : List String) :
    List SalesRow :=
  if values.isEmpty then data
  else data.filter (fun r => decide (r.col column ∈ values))

/-- The membership predicate of the spec: a row passes when its value in the
column is a member of the allowed values. -/
def matchesFilter (column : Col) (values : List String) : SalesRow → Bool :=
  fun r => decide (r.col column ∈ values)

/-- Floor of a rational as an integer (floor division of numerator by
denominator), kept executable for concrete evaluation. -/
def qfloor (q : ℚ) : ℤ :=
  q.num.fdiv (q.den : ℤ)

/-- Two-decimal rendering of a rational, modelling Python `f"{x:.2f}"`
(rounding to the nearest hundredth). -/
def fmt2 (q : ℚ) : String :=
  let n : ℤ := qfloor (q * 100 + 1 / 2)
  let sign : String := if n < 0 then "-" else ""
  let m : ℕ := n.natAbs
  sign ++ toString (m / 100) ++ "." ++
    (if m % 100 < 10 then "0" else "") ++ toString (m % 100)

/-- Division of a rational by a count, as the source performs it with float
arithmetic: a zero denominator has no well-defined result (`none`, the
source's NaN). -/
def divNan (a : ℚ) (b : ℕ) : Option ℚ :=
  if b = 0 then none else some (a / (b : ℚ))

/-- Rendering of a possibly-NaN float by `f"{x:.2f}"`: Python prints `nan`
for the NaN value. -/
def fmtNan (o : Option ℚ) : String :=
  match o with
  | none => "nan"
  | some q => fmt2 q

/-- A KPI cell as `calculate_kpis` returns it: either a formatted string or
an integer count. -/
inductive KpiValue where
  | str (s : String)
  | nat (n : ℕ)
  deriving DecidableEq

/-- `toy.py` lines 41-48 / `transportation.py` lines 31-38, `calculate_kpis`:
sum of `SALES`, number of distinct `ORDERNUMBER` values (`nunique`), the
average `total_sales / total_orders / 1000`, and the number of distinct
`CUSTOMERNAME` values; the two monetary figures are rendered to two decimals
with `M`/`K` suffixes. -/
def calculate_kpis (data : List SalesRow) : List KpiValue :=
  let total_sales : ℚ := (data.map SalesRow.SALES).sum
  let sales_in_m : String := fmt2 (total_sales / 1000000) ++ "M"
  let total_orders : ℕ := ((data.map SalesRow.ORDERNUMBER).dedup).length
  let average_sales_per_order : String :=
    fmtNan ((divNan total_sales total_orders).map (fun q => q / 1000)) ++ "K"
  let unique_customers : ℕ := ((data.map SalesRow.CUSTOMERNAME).dedup).length
  [KpiValue.str sales_in_m, KpiValue.nat total_orders,
    KpiValue.str average_sales_per_order, KpiValue.nat unique_customers]

/-- Spec 4.3: totalSales = sum of sales amount over all rows. -/
def totalSales (data : List SalesRow) : ℚ :=
  (data.map SalesRow.SALES).sum

/-- Spec 4.3: orderCount = count of distinct order-number identifiers. -/
def orderCount (data : List SalesRow) : ℕ :=
  (data.map SalesRow.ORDERNUMBER).toFinset.card

/-- Spec 4.3: uniqueCustomerCount = count of distinct customer names. -/
def uniqueCustomerCount (data : List SalesRow) : ℕ :=
  (data.map SalesRow.CUSTOMERNAME).toFinset.card

/-- The four statistics exactly as spec 4.3 words them, in the rendered form
of the KPI tiles.  The quotient `totalSales / orderCount`, which the spec
leaves undefined at `orderCount = 0`, is totalised here by Lean's
division-by-zero convention (`x / 0 = 0`). -/
def kpisAsSpecified (data : List SalesRow) : List KpiValue :=
  [KpiValue.str (fmt2 (totalSales data / 1000000) ++ "M"),
    KpiValue.nat (orderCount data),
    KpiValue.str (fmt2 (totalSales data / (orderCount data : ℚ) / 1000) ++ "K"),
    KpiValue.nat (uniqueCustomerCount data)]

/-- The three-row scenario dataset of spec 8: quantities 10/20/30 are not
KPI-relevant; sales 50/100/150; two distinct order numbers. -/
def scenarioData : List SalesRow :=
  [{ ORDERNUMBER := 1, SALES := 50, CUSTOMERNAME := "Alpha Toys",
     ORDERDATE := 1, PRODUCTLINE := "Planes", COUNTRY := "USA",
     STATUS := "Shipped" },
   { ORDERNUMBER := 1, SALES := 100, CUSTOMERNAME := "Alpha Toys",
     ORDERDATE := 2, PRODUCTLINE := "Trains", COUNTRY := "USA",
     STATUS := "Shipped" },
   { ORDERNUMBER := 2, SALES := 150, CUSTOMERNAME := "Beta Models",
     ORDERDATE := 3, PRODUCTLINE := "Planes", COUNTRY := "France",
     STATUS := "Cancelled" }]

/-- The set of values a categorical column takes in a dataset; the blocks
`filter_data data c [v]` for `v` in this set form the exhaustive partition
of the dataset by that column. -/
def colValues (data : List SalesRow) (c : Col) : Finset String :=
  (data.map (fun r => r.col c)).toFinset

/-- The sidebar state of `toy.py` `display_sidebar` (lines 56-72): the two
date inputs (lines 57-58) and the three multiselect lists. -/
structure SidebarSelections where
  start_date : ℤ
  end_date : ℤ
  selected_product_lines : List String
  selected_countries : List String
  selected_statuses : List String
  deriving DecidableEq

/-- `toy.py` `main` lines 138-142: the filtered dataset is produced by three
`filter_data` calls on `PRODUCTLINE`, `COUNTRY` and `STATUS`.  The
`start_date`/`end_date` values read in `display_sidebar` are local to that
function and are returned nowhere, so no date comparison ever reaches the
data. -/
def mainFilteredData (data : List SalesRow) (sb : SidebarSelections) :
    List SalesRow :=
  filter_data
    (filter_data
      (filter_data data Col.PRODUCTLINE sb.selected_product_lines)
      Col.COUNTRY sb.selected_countries)
    Col.STATUS sb.selected_statuses

/-- One row of `predict.py`'s dataframe after the renames, restricted to the
columns its filter and model read. -/
structure PredRow where
  PRODUCTLINE : String
  COUNTRY : String
  QTR_ID : ℕ
  OrderedQuantity : ℤ
  PriceForEach : ℚ
  SALES : ℚ
  deriving DecidableEq

/-- `predict.py` lines 37-41: the conjunctive filter on product line,
country and quarter. -/
def filtered_df (df : List PredRow) (product country : String) (quarter : ℕ) :
    List PredRow :=
  df.filter (fun r =>
    decide (r.PRODUCTLINE = product ∧ r.COUNTRY = country ∧ r.QTR_ID = quarter))

/-- `predict.py` line 61: `1 - (1 - r2) * (len(y) - 1) / (len(y) - X.shape[1] - 1)`.
The float division has no well-defined result when the denominator
`n - p - 1` is zero (the source produces inf/NaN there), modelled as `none`. -/
def adjusted_r2 (r2 : ℚ) (n p : ℕ) : Option ℚ :=
  if (n : ℚ) - p - 1 = 0 then none
  else some (1 - (1 - r2) * ((n : ℚ) - 1) / ((n : ℚ) - p - 1))

/-- Outcome of the prediction page: either a model was trained (carrying the
adjusted R-squared the page computes, `none` when that division is
undefined) or the page shows the `Not enough data` warning. -/
inductive PredictOutcome where
  | trained (adjustedR2 : Option ℚ)
  | insufficientData
  deriving DecidableEq

/-- `predict.py` lines 52-110: the `len(filtered_df) > 1` guard decides
between training plus metrics and the `Not enough data` warning.  The fitted
R-squared of the `RandomForestRegressor` is abstracted as the parameter
`r2` (the ensemble fit lives in scikit-learn, outside this embedding); the
page has 2 features, so `X.shape[1] = 2`. -/
def predict_page (df : List PredRow) (product country : String) (quarter : ℕ)
    (r2 : ℚ) : PredictOutcome :=
  if 1 < (filtered_df df product country quarter).length then
    PredictOutcome.trained
      (adjusted_r2 r2 (filtered_df df product country quarter).length 2)
  else
    PredictOutcome.insufficientData

/-- A three-row slice matching the filter selection
`("Classic Cars", "USA", 1)`: enough rows to train, and exactly the sample
size at which the adjusted R-squared denominator vanishes. -/
def predictScenarioDf : List PredRow :=
  [{ PRODUCTLINE := "Classic Cars", COUNTRY := "USA", QTR_ID := 1,
     OrderedQuantity := 10, PriceForEach := 5, SALES := 50 },
   { PRODUCTLINE := "Classic Cars", COUNTRY := "USA", QTR_ID := 1,
     OrderedQuantity := 20, PriceForEach := 5, SALES := 100 },
   { PRODUCTLINE := "Classic Cars", COUNTRY := "USA", QTR_ID := 1,
     OrderedQuantity := 30, PriceForEach := 5, SALES := 150 }]

/-- A one-row sales dataset whose order date (day 10) lies outside the
sidebar interval below. -/
def dateCexRow : SalesRow :=
  { ORDERNUMBER := 7, SALES := 42, CUSTOMERNAME := "Gamma Crafts",
    ORDERDATE := 10, PRODUCTLINE := "Ships", COUNTRY := "Japan",
    STATUS := "Shipped" }

/-- Sidebar state supplying the date interval `[0, 5]` and no categorical
selection. -/
def dateCexSidebar : SidebarSelections :=
  { start_date := 0, end_date := 5, selected_product_lines := [],
    selected_countries := [], selected_statuses := [] }

/-- Two rows of one and the same order (`ORDERNUMBER = 1`) falling into two
different `PRODUCTLINE` blocks. -/
def sharedOrderData : List SalesRow :=
  [{ ORDERNUMBER := 1, SALES := 50, CUSTOMERNAME := "Alpha Toys",
     ORDERDATE := 1, PRODUCTLINE := "Planes", COUNTRY := "USA",
     STATUS := "Shipped" },
   { ORDERNUMBER := 1, SALES := 100, CUSTOMERNAME := "Alpha Toys",
     ORDERDATE := 1, PRODUCTLINE := "Trains", COUNTRY := "USA",
     STATUS := "Shipped" }]

/-! ## CSV export and re-parsing

`add_download_button` (`toy.py` lines 106-118 / `transportation.py` lines
99-113) serialises the filtered dataframe with
`filtered_data.to_csv(csv_buffer, index=False)`: a header line of the column
names followed by one comma-separated line per row, each line terminated by
a newline and no index column, with minimal quoting (a field containing a
comma, a double quote or a line break is wrapped in double quotes and inner
quotes are doubled).  The dataset is modelled schema-generically as a column
list plus string-valued rows, which is what the CSV text itself carries. -/

/-- A cell character that forces quoting under minimal quoting: delimiter,
quote or line break. -/
def isSpecialChar (ch : Char) : Bool :=
  ch = ',' || ch = '"' || ch = '\n' || ch = '\r'

/-- Quote-doubling of a single character inside a quoted field. -/
def dq (ch : Char) : List Char :=
  if ch = '"' then ['"', '"'] else [ch]

/-- Minimal-quoting encoding of one field. -/
def encF (f : List Char) : List Char :=
  if f.any isSpecialChar then '"' :: (f.flatMap dq ++ ['"']) else f

/-- Collapse doubled quotes back to single quotes (the inverse of `dq`
applied along a field body). -/
def collapse : List Char → List Char
  | [] => []
  | [c] => [c]
  | c :: c2 :: rest =>
    if c = '"' ∧ c2 = '"' then '"' :: collapse rest
    else c :: collapse (c2 :: rest)

/-- Decoding of one field: a field starting with a quote loses its outer
quotes and has its doubled quotes collapsed; any other field is literal. -/
def decF (cs : List Char) : List Char :=
  match cs with
  | [] => []
  | c :: rest => if c = '"' then collapse rest.dropLast else c :: rest

/-- Prepend a character to the first chunk of a split result. -/
def consHead (c : Char) : List (List Char) → List (List Char)
  | [] => [[c]]
  | h :: t => (c :: h) :: t

/-- Quote-aware splitting: split on the delimiter only at even quote
parity (outside quoted fields).  `b` is the in-quotes state. -/
def splitQAux (d : Char) : Bool → List Char → List (List Char)
  | _, [] => [[]]
  | b, c :: rest =>
    if c = '"' then consHead c (splitQAux d (!b) rest)
    else if c = d ∧ b = false then [] :: splitQAux d b rest
    else consHead c (splitQAux d b rest)

/-- Split a character stream on a delimiter, ignoring delimiters inside
quoted fields. -/
def splitQ (d : Char) (cs : List Char) : List (List Char) :=
  splitQAux d false cs

/-- Prepend a chunk to the first chunk of a split result (what `splitQAux`
does, character by character, while no delimiter fires). -/
def prependHead (a : List Char) : List (List Char) → List (List Char)
  | [] => [a]
  | h :: t => (a ++ h) :: t

/-- A chunk starting in in-quotes state `b` is safe for delimiter `d` when
scanning it meets every occurrence of `d` inside quotes and ends at even
quote parity: `splitQAux` passes over such a chunk without splitting. -/
def safeB (d : Char) : Bool → List Char → Prop
  | b, [] => b = false
  | b, c :: rest =>
    if c = '"' then safeB d (!b) rest
    else (b = true ∨ c ≠ d) ∧ safeB d b rest

/-- Join chunks with a delimiter character (the inverse of `splitQ` on
well-formed chunks). -/
def joinD (d : Char) : List (List Char) → List Char
  | [] => []
  | [a] => a
  | a :: rest => a ++ d :: joinD d rest

/-- One serialised CSV record: the encoded fields joined by commas. -/
def encodeRow (r : List (List Char)) : List Char :=
  joinD ',' (r.map encF)

/-- One parsed CSV record: split on top-level commas, then decode each
field. -/
def decodeRow (line : List Char) : List (List Char) :=
  (splitQ ',' line).map decF

/-- The serialised file: every record (header first) on its own
newline-terminated line. -/
def toCSVChars (recs : List (List (List Char))) : List Char :=
  joinD '\n' (recs.map encodeRow) ++ ['\n']

/-- Drop the single empty chunk produced by the trailing newline. -/
def dropTrailingBlank (ls : List (List Char)) : List (List Char) :=
  if ls.getLast? = some [] then ls.dropLast else ls

/-- Parse a CSV character stream back into records: split into lines
outside quotes, drop the trailing blank line, decode every record. -/
def parseCSVChars (cs : List Char) : List (List (List Char)) :=
  (dropTrailingBlank (splitQ '\n' cs)).map decodeRow

/-- The (filtered) dataset as the export sees it: the ordered column names
and the rows as rendered cell strings. -/
structure Dataset where
  columns : List String
  rows : List (List String)
  deriving DecidableEq

/-- `filtered_data.to_csv(csv_buffer, index=False)` from
`add_download_button`: header row first, original column order, one line
per data row, no index column. -/
def toCSV (d : Dataset) : String :=
  String.mk (toCSVChars ((d.columns.map String.data)
    :: d.rows.map (fun r => r.map String.data)))

/-- Modelled from the spec: `parseCSV` (the spec's round-trip reader, pandas
`read_csv` in the source's ecosystem, not part of `src/`) reading back CSV
text per spec section 6: comma-separated, header row first, no index
column, blank trailing line ignored, quoted fields unescaped. -/
def parseCSV (s : String) : Dataset :=
  match parseCSVChars s.data with
  | [] => { columns := [], rows := [] }
  | h :: t => { columns := h.map String.mk,
                rows := t.map (fun r => r.map String.mk) }

/-- A concrete filtered export: the second column name and the second cell
contain a comma and a quote, exercising the quoting path. -/
def csvWitnessData : Dataset :=
  { columns := ["CUSTOMERNAME", "SALES"],
    rows := [["Mini Gifts, \"Ltd\"", "50"], ["Beta Models", "150"]] }

/-! ## Theorems -/

/-- C3: filtering with an empty allowed-value set is the identity transform:
for every dataset and every column, `filter_data data column []` returns the
input dataset unchanged. -/
theorem filter_data_empty_values_identity (data : List SalesRow) (column : Col) :
    filter_data data column [] = data := rfl

/-- C2: for every dataset, column and non-empty list of allowed values,
`filter_data` returns exactly the rows whose value in the column is a member
of the allowed values, as a subsequence in the original row order
(`List.filter` keeps order; `Sublist` witnesses the subsequence property). -/
theorem filter_data_membership_subsequence (data : List SalesRow) (column : Col)
    (values : List String) (h : values ≠ []) :
    filter_data data column values = data.filter (matchesFilter column values)
      ∧ (filter_data data column values).Sublist data := by
  have he : values.isEmpty = false := by
    cases values with
    | nil => exact absurd rfl h
    | cons v vs => rfl
  have hfd : filter_data data column values
      = data.filter (fun r => decide (r.col column ∈ values)) := by
    simp [filter_data, he]
  exact ⟨hfd, hfd ▸ List.filter_sublist data⟩

/-- Witness for C2 at the scenario dataset and the country filter `["USA"]`. -/
theorem filter_data_membership_subsequence_witness :
    filter_data scenarioData Col.COUNTRY ["USA"]
        = scenarioData.filter (matchesFilter Col.COUNTRY ["USA"])
      ∧ (filter_data scenarioData Col.COUNTRY ["USA"]).Sublist scenarioData :=
  filter_data_membership_subsequence scenarioData Col.COUNTRY ["USA"]
    (by with_unfolding_all decide)

/-- C5 (failing input): on the empty filtered dataset the source divides
`total_sales` by `total_orders = 0` without a guard; the float quotient is
NaN and the third KPI is rendered as the string `nanK` rather than a
well-defined statistic. -/
theorem calculate_kpis_empty_dataset_nan :
    calculate_kpis [] =
      [KpiValue.str "0.00M", KpiValue.nat 0, KpiValue.str "nanK",
        KpiValue.nat 0] := by
  with_unfolding_all decide

/-- C4: the regression page trains a model if and only if the filtered
dataset has more than one row, and with fewer than two rows it produces the
explicit insufficient-data state instead. -/
theorem regression_trained_iff_more_than_one_row (df : List PredRow)
    (product country : String) (quarter : ℕ) (r2 : ℚ) :
    ((∃ a, predict_page df product country quarter r2 = PredictOutcome.trained a)
        ↔ 1 < (filtered_df df product country quarter).length)
      ∧ ((filtered_df df product country quarter).length < 2 →
        predict_page df product country quarter r2
          = PredictOutcome.insufficientData) := by
  constructor
  · constructor
    · rintro ⟨a, ha⟩
      by_contra hlen
      simp only [predict_page, if_neg hlen] at ha
      exact PredictOutcome.noConfusion ha
    · intro hlen
      refine ⟨adjusted_r2 r2 (filtered_df df product country quarter).length 2, ?_⟩
      simp only [predict_page, if_pos hlen]
  · intro hlen
    have : ¬ 1 < (filtered_df df product country quarter).length := by omega
    simp only [predict_page, if_neg this]

/-- Witness for C4: a single matching row is below the guard, so the page
reports insufficient data. -/
theorem regression_trained_iff_more_than_one_row_witness :
    predict_page (predictScenarioDf.take 1) "Classic Cars" "USA" 1 0
      = PredictOutcome.insufficientData :=
  (regression_trained_iff_more_than_one_row (predictScenarioDf.take 1)
      "Classic Cars" "USA" 1 0).2
    (by with_unfolding_all decide)

/-- C6 (failing input): with exactly three filtered rows the page trains
(3 > 1) and evaluates the adjusted R-squared formula with denominator
`3 - 2 - 1 = 0`; the division is unguarded, so no numeric value exists
(`none`, NaN/inf in the source) for every fitted R-squared. -/
theorem adjusted_r2_unguarded_at_three_rows :
    ∀ r2 : ℚ, predict_page predictScenarioDf "Classic Cars" "USA" 1 r2
      = PredictOutcome.trained none := by
  intro r2
  have hlen : (filtered_df predictScenarioDf "Classic Cars" "USA" 1).length = 3 := by
    with_unfolding_all decide
  have hadj : adjusted_r2 r2 3 2 = none := by
    simp only [adjusted_r2, if_pos]
    norm_num
  have h13 : 1 < (filtered_df predictScenarioDf "Classic Cars" "USA" 1).length := by
    rw [hlen]
    norm_num
  unfold predict_page
  rw [if_pos h13, hlen, hadj]

/-- C7 (failing input): the date interval from the sidebar is never applied.
The pipeline's result is independent of `start_date`/`end_date`, and on the
concrete one-row dataset the row with order date 10 survives the interval
`[0, 5]` untouched. -/
theorem date_range_filter_never_applied :
    (∀ (data : List SalesRow) (s e s' e' : ℤ) (pl co st : List String),
        mainFilteredData data ⟨s, e, pl, co, st⟩
          = mainFilteredData data ⟨s', e', pl, co, st⟩)
      ∧ mainFilteredData [dateCexRow] dateCexSidebar = [dateCexRow]
      ∧ ¬ dateCexRow.ORDERDATE ≤ dateCexSidebar.end_date := by
  refine ⟨fun data s e s' e' pl co st => rfl, ?_, ?_⟩
  · with_unfolding_all decide
  · with_unfolding_all decide

/-- Helper for the partition additivity of the sales sum: summing the block
totals over any finite set covering the column's values gives the total of
the whole dataset. -/
theorem totalSales_sum_blocks (s : Finset String) (data : List SalesRow) (c : Col)
    (h : ∀ r ∈ data, r.col c ∈ s) :
    (∑ v in s, totalSales (filter_data data c [v])) = totalSales data := by
  induction data with
  | nil =>
    simp [filter_data, totalSales]
  | cons r t ih =>
    have hr : r.col c ∈ s := h r (List.mem_cons_self r t)
    have ht : ∀ x ∈ t, x.col c ∈ s := fun x hx => h x (List.mem_cons_of_mem r hx)
    have hsplit : ∀ v, totalSales (filter_data (r :: t) c [v])
        = (if r.col c = v then r.SALES else 0) + totalSales (filter_data t c [v]) := by
      intro v
      by_cases hv : r.col c = v
      · simp [filter_data, List.filter_cons, hv, totalSales]
      · simp [filter_data, List.filter_cons, hv, totalSales]
    calc (∑ v in s, totalSales (filter_data (r :: t) c [v]))
        = ∑ v in s, ((if r.col c = v then r.SALES else 0)
            + totalSales (filter_data t c [v])) :=
          Finset.sum_congr rfl (fun v _ => hsplit v)
      _ = (∑ v in s, if r.col c = v then r.SALES else 0)
            + ∑ v in s, totalSales (filter_data t c [v]) := Finset.sum_add_distrib
      _ = r.SALES + totalSales t := by
          rw [Finset.sum_ite_eq s (r.col c) (fun _ => r.SALES), if_pos hr, ih ht]
      _ = totalSales (r :: t) := by simp [totalSales]

/-- C8 (amended): the total-sales KPI is additive over the exhaustive
partition of a dataset by the values of a categorical column: the sum of
`totalSales` over the blocks equals `totalSales` of the whole dataset. -/
theorem totalSales_partition_additive (data : List SalesRow) (c : Col) :
    (∑ v in colValues data c, totalSales (filter_data data c [v]))
      = totalSales data :=
  totalSales_sum_blocks (colValues data c) data c
    (fun _ hr => List.mem_toFinset.mpr (List.mem_map_of_mem (fun x => x.col c) hr))

/-- C8 (counterexample): the distinct-count KPIs are not partition-additive.
Order number 1 has rows in both `PRODUCTLINE` blocks, so the blocks count it
twice (sum 2) while the whole dataset counts it once. -/
theorem distinct_counts_not_partition_additive :
    (∑ v in colValues sharedOrderData Col.PRODUCTLINE,
        orderCount (filter_data sharedOrderData Col.PRODUCTLINE [v]))
      ≠ orderCount sharedOrderData := by
  with_unfolding_all decide

/-- Helper shared by the KPI claims: whenever at least one distinct order
number exists, `calculate_kpis` evaluates to the four rendered statistics in
terms of the spec-level aggregates. -/
theorem kpis_formula (data : List SalesRow) (h : orderCount data ≠ 0) :
    calculate_kpis data =
      [KpiValue.str (fmt2 (totalSales data / 1000000) ++ "M"),
        KpiValue.nat (orderCount data),
        KpiValue.str (fmt2 (totalSales data / (orderCount data : ℚ) / 1000) ++ "K"),
        KpiValue.nat (uniqueCustomerCount data)] := by
  have ho : ((data.map SalesRow.ORDERNUMBER).dedup).length = orderCount data := by
    rw [orderCount, List.card_toFinset]
  have hc : ((data.map SalesRow.CUSTOMERNAME).dedup).length
      = uniqueCustomerCount data := by
    rw [uniqueCustomerCount, List.card_toFinset]
  simp only [calculate_kpis, ho, hc, divNan, if_neg h, Option.map_some', fmtNan,
    totalSales]

/-- C1 (counterexample): `calculate_kpis` does not return the four
spec-defined statistics on every dataset: on the empty dataset the average
is the NaN rendering `nanK`, not a two-decimal rounding of the (undefined)
quotient `totalSales / orderCount / 1000`. -/
theorem calculate_kpis_not_spec_on_all_datasets :
    ¬ ∀ data : List SalesRow, calculate_kpis data = kpisAsSpecified data := by
  intro hall
  exact absurd (hall []) (by with_unfolding_all decide)

/-- C1 (amended): on every dataset with at least one distinct order number,
`calculate_kpis` returns exactly the four spec-defined statistics: total
sales divided by 1,000,000 with two-decimal rounding, the count of distinct
order numbers, totalSales / orderCount / 1,000 with two-decimal rounding,
and the count of distinct customer names. -/
theorem calculate_kpis_matches_spec (data : List SalesRow)
    (h : 1 ≤ orderCount data) :
    calculate_kpis data = kpisAsSpecified data := by
  rw [kpis_formula data (by omega)]
  rfl

/-- Witness for the amended C1 at the three-row scenario dataset of spec 8. -/
theorem calculate_kpis_matches_spec_witness :
    calculate_kpis scenarioData = kpisAsSpecified scenarioData :=
  calculate_kpis_matches_spec scenarioData (by with_unfolding_all decide)

/-- C10: on every dataset with at least one distinct order number the KPI
list has exactly four entries of mixed type: formatted strings (two-decimal
millions with an `M` suffix and two-decimal thousands with a `K` suffix) in
positions one and three, and the two integer distinct counts in positions
two and four. -/
theorem calculate_kpis_shape_mixed (data : List SalesRow)
    (h : 1 ≤ orderCount data) :
    ∃ s t : String,
      calculate_kpis data =
          [KpiValue.str s, KpiValue.nat (orderCount data), KpiValue.str t,
            KpiValue.nat (uniqueCustomerCount data)]
        ∧ s = fmt2 (totalSales data / 1000000) ++ "M"
        ∧ t = fmt2 (totalSales data / (orderCount data : ℚ) / 1000) ++ "K" :=
  ⟨_, _, kpis_formula data (by omega), rfl, rfl⟩

/-- Witness for C10 at the two-row shared-order dataset. -/
theorem calculate_kpis_shape_mixed_witness :
    ∃ s t : String,
      calculate_kpis sharedOrderData =
          [KpiValue.str s, KpiValue.nat (orderCount sharedOrderData),
            KpiValue.str t, KpiValue.nat (uniqueCustomerCount sharedOrderData)]
        ∧ s = fmt2 (totalSales sharedOrderData / 1000000) ++ "M"
        ∧ t = fmt2 (totalSales sharedOrderData
            / (orderCount sharedOrderData : ℚ) / 1000) ++ "K" :=
  calculate_kpis_shape_mixed sharedOrderData (by with_unfolding_all decide)

/-! ### Splitting and joining lemmas for the CSV round trip -/

theorem consHead_ne_nil (c : Char) (l : List (List Char)) : consHead c l ≠ [] := by
  cases l <;> simp [consHead]

theorem splitQAux_ne_nil (d : Char) (b : Bool) (cs : List Char) :
    splitQAux d b cs ≠ [] := by
  cases cs with
  | nil => simp [splitQAux]
  | cons c rest =>
    unfold splitQAux
    split
    · exact consHead_ne_nil _ _
    · split
      · simp
      · exact consHead_ne_nil _ _

theorem splitQAux_quote (d : Char) (b : Bool) (rest : List Char) :
    splitQAux d b ('"' :: rest) = consHead '"' (splitQAux d (!b) rest) := by
  simp [splitQAux]

theorem splitQAux_delim (d : Char) (rest : List Char) (hd : d ≠ '"') :
    splitQAux d false (d :: rest) = [] :: splitQAux d false rest := by
  simp [splitQAux, hd]

theorem splitQAux_other (d : Char) (b : Bool) (c : Char) (rest : List Char)
    (hc : c ≠ '"') (h2 : ¬(c = d ∧ b = false)) :
    splitQAux d b (c :: rest) = consHead c (splitQAux d b rest) := by
  simp [splitQAux, hc, h2]

theorem consHead_prependHead (c : Char) (a : List Char) (l : List (List Char)) :
    consHead c (prependHead a l) = prependHead (c :: a) l := by
  cases l <;> simp [consHead, prependHead]

theorem prependHead_nil_of_ne (l : List (List Char)) (h : l ≠ []) :
    prependHead [] l = l := by
  cases l with
  | nil => exact absurd rfl h
  | cons x xs => simp [prependHead]

theorem splitQAux_append (d : Char) (a : List Char) :
    ∀ (b : Bool) (rest : List Char), safeB d b a →
      splitQAux d b (a ++ rest) = prependHead a (splitQ d rest) := by
  induction a with
  | nil =>
    intro b rest h
    have hb : b = false := h
    subst hb
    rw [List.nil_append,
      prependHead_nil_of_ne (splitQ d rest) (splitQAux_ne_nil d false rest)]
    rfl
  | cons c a ih =>
    intro b rest h
    by_cases hc : c = '"'
    · subst hc
      have h' : safeB d (!b) a := by simpa [safeB] using h
      rw [List.cons_append, splitQAux_quote, ih (!b) rest h', consHead_prependHead]
    · have h' : (b = true ∨ c ≠ d) ∧ safeB d b a := by simpa [safeB, hc] using h
      have h2 : ¬(c = d ∧ b = false) := by
        rintro ⟨hcd, hbf⟩
        rcases h'.1 with hb | hcd'
        · rw [hb] at hbf
          exact Bool.noConfusion hbf
        · exact hcd' hcd
      rw [List.cons_append, splitQAux_other d b c _ hc h2, ih b rest h'.2,
        consHead_prependHead]

theorem splitQ_joinD (d : Char) (hd : d ≠ '"') :
    ∀ fs : List (List Char), fs ≠ [] → (∀ a ∈ fs, safeB d false a) →
      splitQ d (joinD d fs) = fs := by
  intro fs
  induction fs with
  | nil => intro h; exact absurd rfl h
  | cons a fs ih =>
    intro _ hsafe
    cases fs with
    | nil =>
      show splitQAux d false (joinD d [a]) = [a]
      have : joinD d [a] = a ++ [] := by simp [joinD]
      rw [this, splitQAux_append d a false [] (hsafe a (List.mem_cons_self a []))]
      simp [splitQ, splitQAux, prependHead]
    | cons b fs' =>
      have hj : joinD d (a :: b :: fs') = a ++ d :: joinD d (b :: fs') := by
        simp [joinD]
      show splitQAux d false (joinD d (a :: b :: fs')) = a :: b :: fs'
      rw [hj, splitQAux_append d a false _ (hsafe a (List.mem_cons_self a _))]
      rw [show splitQ d (d :: joinD d (b :: fs'))
          = [] :: splitQ d (joinD d (b :: fs')) from splitQAux_delim d _ hd]
      rw [ih (by simp) (fun x hx => hsafe x (List.mem_cons_of_mem a hx))]
      simp [prependHead]

/-! ### Safety of encoded fields and rows -/

theorem safeB_append (d : Char) (a : List Char) :
    ∀ (b : Bool) (l : List Char), safeB d b a → safeB d false l →
      safeB d b (a ++ l) := by
  induction a with
  | nil =>
    intro b l ha hl
    have hb : b = false := ha
    subst hb
    exact hl
  | cons c a ih =>
    intro b l ha hl
    by_cases hc : c = '"'
    · subst hc
      have ha' : safeB d (!b) a := by simpa [safeB] using ha
      show safeB d b ('"' :: (a ++ l))
      simpa [safeB] using ih (!b) l ha' hl
    · have ha' : (b = true ∨ c ≠ d) ∧ safeB d b a := by simpa [safeB, hc] using ha
      show safeB d b (c :: (a ++ l))
      simpa [safeB, hc] using ⟨ha'.1, ih b l ha'.2 hl⟩

theorem safeB_no_special (d : Char) (hd : isSpecialChar d = true) :
    ∀ f : List Char, (∀ c ∈ f, isSpecialChar c = false) → safeB d false f := by
  intro f
  induction f with
  | nil => intro _; rfl
  | cons c f ih =>
    intro h
    have hcs : isSpecialChar c = false := h c (List.mem_cons_self c f)
    have hcq : c ≠ '"' := by
      intro he
      rw [he] at hcs
      simp [isSpecialChar] at hcs
    have hcd : c ≠ d := by
      intro he
      rw [he, hd] at hcs
      exact Bool.noConfusion hcs
    show safeB d false (c :: f)
    simp only [safeB, if_neg hcq]
    exact ⟨Or.inr hcd, ih (fun x hx => h x (List.mem_cons_of_mem c hx))⟩

theorem safeB_quoted_body (d : Char) :
    ∀ f : List Char, safeB d true (f.flatMap dq ++ ['"']) := by
  intro f
  induction f with
  | nil =>
    show safeB d true ('"' :: [])
    simp [safeB]
  | cons c f ih =>
    rw [List.flatMap_cons]
    by_cases hc : c = '"'
    · subst hc
      rw [show dq '"' = ['"', '"'] from rfl, List.append_assoc]
      show safeB d true ('"' :: ('"' :: (f.flatMap dq ++ ['"'])))
      simp only [safeB, if_pos rfl, Bool.not_true, Bool.not_false]
      exact ih
    · rw [show dq c = [c] from by simp [dq, hc], List.append_assoc]
      show safeB d true (c :: (f.flatMap dq ++ ['"']))
      simp only [safeB, if_neg hc]
      exact ⟨Or.inl (by trivial), ih⟩

theorem safeB_encF (d : Char) (hds : isSpecialChar d = true)
    (f : List Char) : safeB d false (encF f) := by
  by_cases hq : f.any isSpecialChar
  · have : encF f = '"' :: (f.flatMap dq ++ ['"']) := by simp [encF, hq]
    rw [this]
    show safeB d false ('"' :: (f.flatMap dq ++ ['"']))
    simpa [safeB] using safeB_quoted_body d f
  · have : encF f = f := by simp [encF, hq]
    rw [this]
    refine safeB_no_special d hds f (fun c hc => ?_)
    by_contra hcs
    exact hq (List.any_eq_true.mpr ⟨c, hc, by
      cases h : isSpecialChar c
      · exact absurd h hcs
      · rfl⟩)

theorem safeB_joinD (d sep : Char) (hne : sep ≠ d) (hq : sep ≠ '"') :
    ∀ chunks : List (List Char), (∀ a ∈ chunks, safeB d false a) →
      safeB d false (joinD sep chunks) := by
  intro chunks
  induction chunks with
  | nil => intro _; rfl
  | cons a chunks ih =>
    intro h
    cases chunks with
    | nil =>
      have : joinD sep [a] = a := by simp [joinD]
      rw [this]
      exact h a (List.mem_cons_self a [])
    | cons b cs =>
      have hj : joinD sep (a :: b :: cs) = a ++ sep :: joinD sep (b :: cs) := by
        simp [joinD]
      rw [hj]
      refine safeB_append d a false _ (h a (List.mem_cons_self a _)) ?_
      show safeB d false (sep :: joinD sep (b :: cs))
      simp only [safeB, if_neg hq]
      exact ⟨Or.inr hne, ih (fun x hx => h x (List.mem_cons_of_mem a hx))⟩

theorem safeB_encodeRow (r : List (List Char)) :
    safeB '\n' false (encodeRow r) := by
  refine safeB_joinD '\n' ',' (by decide) (by decide) (r.map encF) ?_
  intro a ha
  obtain ⟨f, _, rfl⟩ := List.mem_map.mp ha
  exact safeB_encF '\n' (by decide) f

/-! ### Field decoding inverts field encoding -/

theorem collapse_cons_of_ne (c : Char) (hc : c ≠ '"') (l : List Char) :
    collapse (c :: l) = c :: collapse l := by
  cases l with
  | nil => simp [collapse]
  | cons x xs =>
    have : ¬(c = '"' ∧ x = '"') := fun h => hc h.1
    simp [collapse, this]

theorem collapse_flatMap_dq : ∀ f : List Char, collapse (f.flatMap dq) = f := by
  intro f
  induction f with
  | nil => simp [collapse]
  | cons c f ih =>
    rw [List.flatMap_cons]
    by_cases hc : c = '"'
    · subst hc
      rw [show dq '"' = ['"', '"'] from rfl]
      show collapse ('"' :: '"' :: f.flatMap dq) = '"' :: f
      rw [show collapse ('"' :: '"' :: f.flatMap dq)
          = '"' :: collapse (f.flatMap dq) from by simp [collapse], ih]
    · rw [show dq c = [c] from by simp [dq, hc]]
      show collapse (c :: f.flatMap dq) = c :: f
      rw [collapse_cons_of_ne c hc, ih]

theorem decF_encF (f : List Char) : decF (encF f) = f := by
  by_cases hq : f.any isSpecialChar
  · have he : encF f = '"' :: (f.flatMap dq ++ ['"']) := by simp [encF, hq]
    rw [he]
    show (if ('"' : Char) = '"' then collapse (f.flatMap dq ++ ['"']).dropLast
      else '"' :: (f.flatMap dq ++ ['"'])) = f
    rw [if_pos rfl, List.dropLast_concat, collapse_flatMap_dq]
  · have he : encF f = f := by simp [encF, hq]
    rw [he]
    cases f with
    | nil => rfl
    | cons c rest =>
      have hcs : isSpecialChar c = false := by
        by_contra hcs'
        exact hq (List.any_eq_true.mpr ⟨c, List.mem_cons_self c rest, by
          cases h : isSpecialChar c
          · exact absurd h hcs'
          · rfl⟩)
      have hcq : c ≠ '"' := by
        intro he'
        rw [he'] at hcs
        simp [isSpecialChar] at hcs
      show (if c = '"' then collapse rest.dropLast else c :: rest) = c :: rest
      rw [if_neg hcq]

/-! ### Record- and file-level round trips -/

theorem decodeRow_encodeRow (r : List (List Char)) (h : r ≠ []) :
    decodeRow (encodeRow r) = r := by
  unfold decodeRow encodeRow
  rw [splitQ_joinD ',' (by decide) (r.map encF)
    (by
      intro hmap
      exact h (List.map_eq_nil_iff.mp hmap))
    (by
      intro a ha
      obtain ⟨f, _, rfl⟩ := List.mem_map.mp ha
      exact safeB_encF ',' (by decide) f)]
  rw [List.map_map]
  have : ∀ f ∈ r, (decF ∘ encF) f = id f := fun f _ => decF_encF f
  rw [List.map_congr_left this, List.map_id]

theorem joinD_concat_blank (d : Char) :
    ∀ fs : List (List Char), fs ≠ [] → joinD d fs ++ [d] = joinD d (fs ++ [[]]) := by
  intro fs
  induction fs with
  | nil => intro h; exact absurd rfl h
  | cons a fs ih =>
    intro _
    cases fs with
    | nil => simp [joinD]
    | cons b fs' =>
      have h1 : joinD d (a :: b :: fs') = a ++ d :: joinD d (b :: fs') := by
        simp [joinD]
      have h2 : joinD d (a :: (b :: fs' ++ [[]])) = a ++ d :: joinD d (b :: fs' ++ [[]]) := by
        cases fs' <;> simp [joinD]
      rw [h1, List.cons_append, h2, List.append_assoc, List.cons_append]
      rw [show joinD d (b :: fs') ++ [d] = joinD d ((b :: fs') ++ [[]]) from
        ih (by simp)]

theorem parseCSVChars_toCSVChars (recs : List (List (List Char)))
    (hne : recs ≠ []) (hrows : ∀ r ∈ recs, r ≠ []) :
    parseCSVChars (toCSVChars recs) = recs := by
  unfold toCSVChars parseCSVChars
  have hmapne : recs.map encodeRow ≠ [] := by
    intro hmap
    exact hne (List.map_eq_nil_iff.mp hmap)
  rw [joinD_concat_blank '\n' (recs.map encodeRow) hmapne]
  rw [splitQ_joinD '\n' (by decide) (recs.map encodeRow ++ [[]])
    (by simp)
    (by
      intro a ha
      rcases List.mem_append.mp ha with hl | hr
      · obtain ⟨row, _, rfl⟩ := List.mem_map.mp hl
        exact safeB_encodeRow row
      · rw [List.mem_singleton.mp hr]
        rfl)]
  rw [show dropTrailingBlank (recs.map encodeRow ++ [[]]) = recs.map encodeRow from by
    unfold dropTrailingBlank
    rw [if_pos (List.getLast?_concat _), List.dropLast_concat]]
  rw [List.map_map]
  have : ∀ r ∈ recs, (decodeRow ∘ encodeRow) r = id r :=
    fun r hr => decodeRow_encodeRow r (hrows r hr)
  rw [List.map_congr_left this, List.map_id]

/-- C9: the export round trip.  For every dataset with a named column list
and non-degenerate rows, serialising with `toCSV` (header row first,
original column order, no index column, minimal quoting) and re-parsing
yields the dataset back: columns and rows are reproduced exactly. -/
theorem csv_round_trip (D : Dataset) (h1 : D.columns ≠ [])
    (h2 : ∀ r ∈ D.rows, r ≠ []) : parseCSV (toCSV D) = D := by
  obtain ⟨cols, rows⟩ := D
  have h1' : cols ≠ [] := h1
  have h2' : ∀ r ∈ rows, r ≠ [] := h2
  unfold toCSV parseCSV
  rw [show (String.mk (toCSVChars ((cols.map String.data)
        :: rows.map (fun r => r.map String.data)))).data
      = toCSVChars ((cols.map String.data)
        :: rows.map (fun r => r.map String.data)) from rfl]
  rw [parseCSVChars_toCSVChars _ (by simp)
    (by
      intro r hr
      rcases List.mem_cons.mp hr with hh | ht
      · subst hh
        intro hmap
        exact h1' (List.map_eq_nil_iff.mp hmap)
      · obtain ⟨row, hrow, rfl⟩ := List.mem_map.mp ht
        intro hmap
        exact h2' row hrow (List.map_eq_nil_iff.mp hmap))]
  show Dataset.mk ((cols.map String.data).map String.mk)
      ((rows.map (fun r => r.map String.data)).map (fun r => r.map String.mk))
    = Dataset.mk cols rows
  have hmk : ∀ s : String, String.mk s.data = s := fun s => rfl
  simp only [List.map_map, Dataset.mk.injEq]
  refine ⟨(List.map_congr_left (fun s _ => hmk s)).trans (List.map_id cols), ?_⟩
  have hrow : ∀ r : List String, (r.map String.data).map String.mk = r := by
    intro r
    rw [List.map_map]
    exact (List.map_congr_left (fun s _ => hmk s)).trans (List.map_id r)
  exact (List.map_congr_left (fun r _ => hrow r)).trans (List.map_id rows)

/-- Witness for C9 at a concrete two-row export whose cells exercise the
comma and quote escaping. -/
theorem csv_round_trip_witness :
    parseCSV (toCSV csvWitnessData) = csvWitnessData :=
  csv_round_trip csvWitnessData (by with_unfolding_all decide)
    (by with_unfolding_all decide)
